import Mathlib

/-!
Shallow embedding of `rollout_operator.py` (janwer1/rollout-operator), a Kopf
operator performing batched OnDelete rollouts of a single StatefulSet.

Pure helpers (`split_halves`, `batch_ordinals`, `get_ordinal`,
`pod_needs_update`, `needs_rollout`, `set_annotations_patch`) are translated
directly.  The stateful handlers (`check_rollout_timer`, `on_sts_change`,
`RolloutExecutor.delete_batch`, `_execute_rollout`) are embedded as pure
functions over their inputs plus an explicit environment supplying the results
of Kubernetes API reads/writes; exceptions become explicit outcome
constructors.  Logging calls have no effect on state and are omitted except
where they determine control flow.
-/

namespace RolloutOperator

/-! ### Constants (rollout_operator.py lines 162-171) -/

def ROLL_ANNOTATION_STATE : String := "rollout-operator/state"
def ROLL_ANNOTATION_REVISION : String := "rollout-operator/last-revision"
def ROLL_ANNOTATION_PLANNED_AT : String := "rollout-operator/planned-at"

def ROLL_STATE_NONE : String := "none"
def ROLL_STATE_PLANNED : String := "planned"
def ROLL_STATE_ROLLING : String := "rolling"
def ROLL_STATE_DONE : String := "done"

def POD_INDEX_LABEL : String := "apps.kubernetes.io/pod-index"

def REVISION_LABEL : String := "controller-revision-hash"

/-! ### Settings (RolloutSettings, lines 102-119)

Integer-valued settings are modelled as `Int`/`Nat` (Python `int`);
`max_unavailable` is a `Nat` since a negative batch size makes `range` step
negative in Python (unsupported configuration, spec requires `≥ 1`). -/

structure RolloutSettings where
  delay_seconds : Int
  enable_half_split : Bool
  max_unavailable : Nat
  countdown_log_interval : Int
  json_logs : Bool
  pod_termination_grace_period : Int

/-- Default settings from the field defaults of `RolloutSettings`. -/
def defaultSettings : RolloutSettings :=
  ⟨600, true, 2, 60, false, 30⟩

/-! ### CPython `int(...)` on strings

`get_ordinal` and `check_rollout_timer` call `int(s)` on label/annotation
values and treat `ValueError` as a failure.  `parsePyInt` models CPython's
`int` on a decimal string: surrounding ASCII whitespace is stripped, an
optional single `+`/`-` sign is allowed, then a nonempty digit sequence in
which single underscores may separate digits.  It returns `none` where CPython
raises `ValueError`. -/

def digitVal (c : Char) : Option Nat :=
  if c.isDigit then some (c.toNat - 48) else none

/-- Digits after the first one: a single underscore may occur between two
digits (CPython numeric-literal rule). -/
def parseDigitsGo (acc : Nat) : List Char → Option Nat
  | [] => some acc
  | '_' :: c :: cs =>
    match digitVal c with
    | some d => parseDigitsGo (acc * 10 + d) cs
    | none => none
  | c :: cs =>
    match digitVal c with
    | some d => parseDigitsGo (acc * 10 + d) cs
    | none => none

/-- A nonempty digit sequence (underscore separators allowed inside). -/
def parseDigitsU : List Char → Option Nat
  | [] => none
  | c :: cs =>
    match digitVal c with
    | some d => parseDigitsGo d cs
    | none => none

/-- Strip surrounding whitespace, as `int(...)` does before parsing
(CPython also strips some unicode space characters, irrelevant here). -/
def pyStrip (cs : List Char) : List Char :=
  ((cs.dropWhile Char.isWhitespace).reverse.dropWhile Char.isWhitespace).reverse

def parsePyIntChars (cs : List Char) : Option Int :=
  match pyStrip cs with
  | '-' :: rest => (parseDigitsU rest).map (fun n => -(n : Int))
  | '+' :: rest => (parseDigitsU rest).map (fun n => (n : Int))
  | rest => (parseDigitsU rest).map (fun n => (n : Int))

def parsePyInt (s : String) : Option Int :=
  parsePyIntChars s.toList

/-! ### Pods (kubernetes V1Pod, the fields the operator reads)

`metadata` and `labels` are optional exactly as in the client objects; the
code guards `pod.metadata` for `None` and coalesces `labels` with `or {}`.
Label/annotation dictionaries are modelled as association lists with unique
keys looked up by `List.lookup`. -/

structure PodMeta where
  name : String
  labels : Option (List (String × String))
deriving DecidableEq, Repr

structure Pod where
  metadata : Option PodMeta
deriving DecidableEq, Repr

/-- `(pod.metadata.labels if pod.metadata else None) or {}` (lines 220, 255). -/
def podLabels (p : Pod) : List (String × String) :=
  match p.metadata with
  | none => []
  | some m => m.labels.getD []

/-- `pod_needs_update` (lines 209-222): true iff the pod's
`controller-revision-hash` label does not equal the target revision
(a missing label also counts as needing update). -/
def pod_needs_update (p : Pod) (target_revision : String) : Bool :=
  (podLabels p).lookup REVISION_LABEL ≠ some target_revision

/-- Character-level model of `name.startswith(prefix)` together with
`name[len(prefix):]`: returns the suffix when the prefix matches. -/
def dropPrefixChars : List Char → List Char → Option (List Char)
  | [], cs => some cs
  | _ :: _, [] => none
  | p :: ps, c :: cs => if c = p then dropPrefixChars ps cs else none

/-- `get_ordinal` (lines 249-271): prefer the pod-index label (an unparseable
label yields `none`, no fallback); otherwise parse the suffix of the pod
name after `"<sts-name>-"`. -/
def get_ordinal (p : Pod) (sts_name : String) : Option Int :=
  match (podLabels p).lookup POD_INDEX_LABEL with
  | some v => parsePyInt v
  | none =>
    match p.metadata with
    | none => none
    | some m =>
      match dropPrefixChars (sts_name ++ "-").toList m.name.toList with
      | some suffixChars => parsePyIntChars suffixChars
      | none => none

/-! ### StatefulSet views -/

/-- The fields of `V1StatefulSetStatus` read by `needs_rollout`. -/
structure ReadStatus where
  replicas : Option Nat
  updated_replicas : Option Nat
deriving DecidableEq, Repr

/-- The re-read StatefulSet as used by `on_sts_change`: annotations plus
status counters plus `spec.replicas` (the fallback at line 959). -/
structure ReadSts where
  annotations : Option (List (String × String))
  status : Option ReadStatus
  specReplicas : Option Nat
deriving DecidableEq, Repr

/-- `needs_rollout` (lines 193-206): `updated_replicas < replicas` with
`None` counters coalesced to 0; no status means no rollout needed. -/
def needs_rollout (sts : ReadSts) : Bool :=
  match sts.status with
  | none => false
  | some st => (st.updated_replicas.getD 0) < (st.replicas.getD 0)

/-- `extract_annotations` (lines 227-229). -/
def extract_annotations (sts : ReadSts) : List (String × String) :=
  sts.annotations.getD []

/-- `set_annotations_patch` (lines 232-246): the annotation dictionary of the
produced merge patch, with keys inserted in the order of the code. -/
def set_annotations_patch (state last_revision planned_at : Option String) :
    List (String × String) :=
  (state.map fun s => (ROLL_ANNOTATION_STATE, s)).toList ++
  (last_revision.map fun r => (ROLL_ANNOTATION_REVISION, r)).toList ++
  (planned_at.map fun t => (ROLL_ANNOTATION_PLANNED_AT, t)).toList

/-! ### Planning helpers -/

/-- `split_halves` (lines 285-290). -/
def split_halves (ordinals : List Int) (replicas : Nat) :
    List Int × List Int :=
  let mid : Int := (replicas / 2 : Nat)
  let lower := ordinals.filter fun o => o < mid
  let upper := ordinals.filter fun o => o ≥ mid
  (lower, upper)

/-- Ascending sort of ordinals; Python's `sorted` on a list of ints agrees
with any correct ascending sort. -/
def sortOrdinals (ordinals : List Int) : List Int :=
  ordinals.insertionSort (· ≤ ·)

/-- Contiguous chunks of at most `size`, by fuel-bounded recursion mirroring
`range(0, len(sorted_o), batch_size)`; with fuel `≥ length` and `size ≥ 1`
the fuel is never exhausted.  (Python raises `ValueError` on `batch_size=0`;
all theorems assume `size ≥ 1` as the spec requires.) -/
def chunkFuel (fuel : Nat) (size : Nat) (xs : List Int) : List (List Int) :=
  match fuel, xs with
  | 0, _ => []
  | _, [] => []
  | f + 1, xs => xs.take size :: chunkFuel f size (xs.drop size)

/-- `batch_ordinals` (lines 293-299): sort ascending, then cut into
contiguous chunks of at most `batch_size`. -/
def batch_ordinals (ordinals : List Int) (batch_size : Nat) :
    List (List Int) :=
  let sorted_o := sortOrdinals ordinals
  chunkFuel sorted_o.length batch_size sorted_o

/-! ### delete_batch (RolloutExecutor.delete_batch, lines 416-446)

The selection loop partitions the listed pods by ordinal membership and
revision; the deletion loop then issues sequential deletes.  The Kubernetes
delete call is modelled by a response environment `resp : String → Option Nat`
mapping a pod name to `none` (success) or `some code` (an `ApiException` with
that HTTP status).  The code has no try/except around the delete, so the
first raised exception aborts the loop and propagates (`Except.error`). -/

structure BatchResult where
  ordinals : List Int
  deleted_count : Nat
  skipped_count : Nat
deriving DecidableEq, Repr

/-- The `to_delete` list built by the selection loop: pods whose ordinal
resolves into the batch and which still need update. -/
def select_to_delete (sts_name : String) (pods : List Pod)
    (batch : List Int) (target_revision : String) : List Pod :=
  pods.filter fun p =>
    ((get_ordinal p sts_name).any fun o => decide (o ∈ batch)) &&
      pod_needs_update p target_revision

/-- The `already_updated` list: pods whose ordinal resolves into the batch
but which are already on the target revision. -/
def select_already_updated (sts_name : String) (pods : List Pod)
    (batch : List Int) (target_revision : String) : List Pod :=
  pods.filter fun p =>
    ((get_ordinal p sts_name).any fun o => decide (o ∈ batch)) &&
      !pod_needs_update p target_revision

/-- The deletion loop (lines 431-438): `if p.metadata:` guards the delete;
a successful delete increments `deleted_count`; an API exception propagates
immediately (no handler in the code). -/
def runDeletes (resp : String → Option Nat) : List Pod → Except Nat Nat
  | [] => .ok 0
  | p :: ps =>
    match p.metadata with
    | none => runDeletes resp ps
    | some m =>
      match resp m.name with
      | none => (runDeletes resp ps).map (· + 1)
      | some code => .error code

/-- `delete_batch`: select, delete sequentially, and report counts (the
caller fills `batch_num`/`total_batches`, omitted here). -/
def delete_batch (sts_name : String) (pods : List Pod) (batch : List Int)
    (target_revision : String) (resp : String → Option Nat) :
    Except Nat BatchResult :=
  let toDelete := select_to_delete sts_name pods batch target_revision
  let skipped := select_already_updated sts_name pods batch target_revision
  (runDeletes resp toDelete).map fun n =>
    ⟨batch, n, skipped.length⟩

/-! ### check_rollout_timer (lines 729-793)

The timer handler is embedded over: whether the event's object is the target
(`is_target_sts`), the annotations of the (successfully) re-read StatefulSet,
the current unix time, and the settings.  A failed API read returns early in
the code and is subsumed by `noop` here.  `int(planned_at_str)` has no
exception handler, so an unparseable value raises `ValueError`
(`valueError`).  The countdown branch only logs. -/

inductive TimerOutcome where
  | noop
  | countdownLog (remaining waited : Int)
  | startRolling (patch : List (String × String))
  | valueError
deriving DecidableEq, Repr

def check_rollout_timer (isTarget : Bool) (ann : List (String × String))
    (now : Int) (cfg : RolloutSettings) : TimerOutcome :=
  if !isTarget then .noop
  else
    let state := ann.lookup ROLL_ANNOTATION_STATE
    let planned_at_str := ann.lookup ROLL_ANNOTATION_PLANNED_AT
    if state ≠ some ROLL_STATE_PLANNED then .noop
    else
      match planned_at_str with
      | none => .noop
      | some s =>
        -- `if not planned_at_str:` an empty string is falsy in Python
        if s = "" then .noop
        else
          match parsePyInt s with
          | none => .valueError
          | some planned_at =>
            let waited := now - planned_at
            let remaining := cfg.delay_seconds - waited
            if remaining > 0 then .countdownLog remaining waited
            else .startRolling (set_annotations_patch (some ROLL_STATE_ROLLING) none none)

/-! ### on_sts_change (lines 796-1013)

The update handler is embedded over: the target check, the Kopf-provided
`spec`/`status` views, the re-read StatefulSet (`ReadSts`), the pod list
returned by `current_pods`, and the current time.  The outcome records which
return path was taken and, for paths that write, the annotation patch merged
into Kopf's patch object.  The `rolling` branch is modelled up to the
dispatch into `_execute_rollout` (embedded separately below). -/

structure KopfSpec where
  strategyType : Option String
  replicas : Option Nat
deriving DecidableEq, Repr

structure KopfStatus where
  updateRevision : Option String
  currentRevision : Option String
deriving DecidableEq, Repr

inductive WatchOutcome where
  | notTarget
  | wrongStrategy
  | noUpdateRevision
  | revisionComplete
  | noPods
  | missingIndexLabel (names : List String)
  | attributeError
  | planned (patch : List (String × String))
  | plannedRepair (patch : List (String × String))
  | plannedWait
  | rollingDone (patch : List (String × String))
  | rollingExecute (target : String) (replicas : Nat)
  | fallthrough
deriving DecidableEq, Repr

/-- The `missing_index` list comprehension (lines 886-890): a pod whose
`metadata` is `None` passes the filter (`not p.metadata`) and then crashes on
`p.metadata.name` (`AttributeError`), modelled as `Except.error`. -/
def missingIndexNames : List Pod → Except Unit (List String)
  | [] => .ok []
  | p :: ps =>
    let bad := p.metadata = none ∨ ((podLabels p).lookup POD_INDEX_LABEL) = none
    if bad then
      match p.metadata with
      | none => .error ()
      | some m => (missingIndexNames ps).map (m.name :: ·)
    else missingIndexNames ps

def on_sts_change (isTarget : Bool) (spec : Option KopfSpec)
    (status : Option KopfStatus) (sts : ReadSts) (pods : List Pod)
    (now : Int) : WatchOutcome :=
  if !isTarget then .notTarget
  else
    let strategy_type := spec.bind (·.strategyType)
    if strategy_type ≠ some "OnDelete" then .wrongStrategy
    else
      match status.bind (·.updateRevision) with
      | none => .noUpdateRevision
      | some upd =>
        -- `if not update_revision:` the empty string is falsy
        if upd = "" then .noUpdateRevision
        else
          let ann := extract_annotations sts
          let last_revision := ann.lookup ROLL_ANNOTATION_REVISION
          let state := (ann.lookup ROLL_ANNOTATION_STATE).getD ROLL_STATE_NONE
          let planned_at_str := ann.lookup ROLL_ANNOTATION_PLANNED_AT
          -- lines 858-869: the `return` is unconditional inside this branch;
          -- the inner `needs_rollout` test only decides whether to log
          if last_revision = some upd ∧
              (state = ROLL_STATE_DONE ∨ state = ROLL_STATE_NONE) then
            .revisionComplete
          else
            let rollout_needed := needs_rollout sts
            if pods = [] then .noPods
            else
              match missingIndexNames pods with
              | .error _ => .attributeError
              | .ok missing =>
                if missing ≠ [] then .missingIndexLabel missing
                else
                  if (state = ROLL_STATE_NONE ∨ state = ROLL_STATE_DONE) ∧
                      rollout_needed then
                    .planned (set_annotations_patch (some ROLL_STATE_PLANNED)
                      (some upd) (some (toString now)))
                  else if state = ROLL_STATE_PLANNED then
                    match planned_at_str with
                    | none =>
                      .plannedRepair (set_annotations_patch none none
                        (some (toString now)))
                    | some s =>
                      if s = "" then
                        .plannedRepair (set_annotations_patch none none
                          (some (toString now)))
                      else .plannedWait
                  else if state = ROLL_STATE_ROLLING then
                    let replicas :=
                      match spec with
                      | some sp => sp.replicas.getD 0
                      | none => sts.specReplicas.getD 0
                    let pods_needing_update :=
                      pods.filter fun p => pod_needs_update p upd
                    if pods_needing_update = [] then
                      .rollingDone (set_annotations_patch (some ROLL_STATE_DONE)
                        (some upd) none)
                    else .rollingExecute upd replicas
                  else .fallthrough

/-! ### _execute_rollout (lines 475-687)

The executor loops over the planned batches, re-reading the target revision
before each batch.  `ExecEnv` supplies the successive API observations:
`revAt k` is the `updateRevision` returned by `check_for_new_revision` before
the `k`-th processed batch (`none` meaning the re-read StatefulSet has no
status); `podsAt k` is the pod list observed for that batch (the extra
log-only listing for `pod_names` is omitted); `deleteResp k` is the delete
response environment for that batch; `waitOk k` tells whether
`wait_pods_ready` returned normally (it returns only once every ordinal of
the batch has a non-terminating Ready pod) or raised its timeout.  The trace
records the externally visible steps in order. -/

structure ExecEnv where
  revAt : Nat → Option String
  podsAt : Nat → List Pod
  deleteResp : Nat → String → Option Nat
  waitOk : Nat → Bool

inductive Ev where
  | revCheck (r : Option String)
  | batchDone (batch : List Int) (deleted skipped : Nat)
  | waitReady (batch : List Int)
  | finalize
deriving DecidableEq, Repr

inductive ExecResult where
  | superseded (r : Option String)
  | completed
  | deleteFailed (code : Nat)
  | waitTimeout
deriving DecidableEq, Repr

/-- `RolloutExecutor.compute_batches` (lines 402-414); `_execute_rollout`
builds the identical plan inline (lines 481-546, logging aside): halves
(upper first) when enabled and `replicas > 1`, then chunks of at most
`max_unavailable` per range. -/
def compute_batches (cfg : RolloutSettings) (replicas : Nat) :
    List (List Int) :=
  let ordinals : List Int := (List.range replicas).map Int.ofNat
  let ranges :=
    if cfg.enable_half_split && decide (replicas > 1) then
      let halves := split_halves ordinals replicas
      [halves.2, halves.1]
    else [ordinals]
  ranges.flatMap fun range_ordinals =>
    batch_ordinals range_ordinals cfg.max_unavailable

/-- The batch loop of `_execute_rollout` (lines 548-656), followed by
finalization (lines 658-687).  Returns the event trace, the way the
invocation ended, and the annotation patch it merged into Kopf's patch
object (empty when an exception aborted the handler before any
`patch.update`). -/
def execGo (cfg : RolloutSettings) (name : String)
    (original_target R0target : String) (env : ExecEnv) :
    List (List Int) → Nat → List Ev × ExecResult × List (String × String)
  | [], _ =>
    -- finalize: the still-outdated check only logs a warning
    ([.finalize], .completed,
      set_annotations_patch (some ROLL_STATE_DONE) (some R0target) none)
  | b :: bs, k =>
    let r := env.revAt k
    if r ≠ some original_target then
      ([.revCheck r], .superseded r, set_annotations_patch none r none)
    else
      match delete_batch name (env.podsAt k) b R0target (env.deleteResp k) with
      | .error code => ([.revCheck r], .deleteFailed code, [])
      | .ok res =>
        if res.deleted_count = 0 then
          let rest := execGo cfg name original_target R0target env bs (k + 1)
          (.revCheck r :: .batchDone b res.deleted_count res.skipped_count ::
            rest.1, rest.2)
        else if env.waitOk k then
          let rest := execGo cfg name original_target R0target env bs (k + 1)
          (.revCheck r :: .batchDone b res.deleted_count res.skipped_count ::
            .waitReady b :: rest.1, rest.2)
        else
          ([.revCheck r, .batchDone b res.deleted_count res.skipped_count],
            .waitTimeout, [])

/-- `_execute_rollout`: plan the batches and run the loop.  At the call site
(lines 963, 985-993, 1013) `original_target_revision` and
`ctx.target_revision` are both the `updateRevision` observed on entering the
`rolling` branch; they are kept as separate parameters as in the code
(supersession compares against the former, pod filtering and finalization
use the latter). -/
def execute_rollout (cfg : RolloutSettings) (name : String) (replicas : Nat)
    (original_target target : String) (env : ExecEnv) :
    List Ev × ExecResult × List (String × String) :=
  execGo cfg name original_target target env (compute_batches cfg replicas) 0

/-- The batches recorded in a trace, in order of execution. -/
def batchTrace : List Ev → List (List Int)
  | [] => []
  | .batchDone b _ _ :: t => b :: batchTrace t
  | _ :: t => batchTrace t

/-- Readiness gating of a trace: every batch execution that deleted at least
one pod is immediately followed either by nothing (the readiness wait timed
out and the invocation aborted) or by a successful readiness wait for that
same batch. -/
def Gated : List Ev → Prop
  | [] => True
  | .batchDone b n _ :: t =>
    (1 ≤ n → t = [] ∨ ∃ t2, t = .waitReady b :: t2) ∧ Gated t
  | _ :: t => Gated t

/-! ### Concrete example data used by witnesses and counterexamples -/

/-- A pod at ordinal 0 still on revision "old". -/
def podWeb0old : Pod :=
  ⟨some ⟨"web-0", some [(POD_INDEX_LABEL, "0"), (REVISION_LABEL, "old")]⟩⟩

/-- A second pod whose pod-index label also resolves to ordinal 0. -/
def podWeb0oldB : Pod :=
  ⟨some ⟨"web-0b", some [(POD_INDEX_LABEL, "0"), (REVISION_LABEL, "old")]⟩⟩

/-- A pod at ordinal 0 already on revision "new". -/
def podWeb0new : Pod :=
  ⟨some ⟨"web-0", some [(POD_INDEX_LABEL, "0"), (REVISION_LABEL, "new")]⟩⟩

/-- A pod at ordinal 1 already on revision "new". -/
def podWeb1new : Pod :=
  ⟨some ⟨"web-1", some [(POD_INDEX_LABEL, "1"), (REVISION_LABEL, "new")]⟩⟩

/-! ### Lemmas about chunking -/

theorem chunkFuel_flatten {size : Nat} (hM : 1 ≤ size) :
    ∀ fuel xs, xs.length ≤ fuel → (chunkFuel fuel size xs).flatten = xs := by
  intro fuel
  induction fuel with
  | zero =>
    intro xs hx
    have : xs = [] := List.length_eq_zero.mp (Nat.le_zero.mp hx)
    subst this
    rfl
  | succ f ih =>
    intro xs hx
    match xs with
    | [] => rfl
    | x :: rest =>
      have hdrop : (List.drop size (x :: rest)).length ≤ f := by
        rw [List.length_drop]
        simp only [List.length_cons] at hx ⊢
        omega
      calc (chunkFuel (f + 1) size (x :: rest)).flatten
          = List.take size (x :: rest) ++
              (chunkFuel f size (List.drop size (x :: rest))).flatten := by
            simp [chunkFuel]
        _ = List.take size (x :: rest) ++ List.drop size (x :: rest) := by
            rw [ih _ hdrop]
        _ = x :: rest := List.take_append_drop _ _

theorem chunkFuel_chunk_length {size : Nat} (hM : 1 ≤ size) :
    ∀ fuel xs c, c ∈ chunkFuel fuel size xs →
      1 ≤ c.length ∧ c.length ≤ size := by
  intro fuel
  induction fuel with
  | zero => intro xs c hc; simp [chunkFuel] at hc
  | succ f ih =>
    intro xs c hc
    match xs with
    | [] => simp [chunkFuel] at hc
    | x :: rest =>
      simp only [chunkFuel, List.mem_cons] at hc
      rcases hc with hc | hc
      · subst hc
        rw [List.length_take]
        simp only [List.length_cons]
        omega
      · exact ih _ c hc

theorem chunkFuel_chunk_sorted {size : Nat} :
    ∀ fuel (xs : List Int), List.Sorted (· ≤ ·) xs →
      ∀ c ∈ chunkFuel fuel size xs, List.Sorted (· ≤ ·) c := by
  intro fuel
  induction fuel with
  | zero => intro xs _ c hc; simp [chunkFuel] at hc
  | succ f ih =>
    intro xs hs c hc
    match xs with
    | [] => simp [chunkFuel] at hc
    | x :: rest =>
      simp only [chunkFuel, List.mem_cons] at hc
      rcases hc with hc | hc
      · subst hc
        exact List.Pairwise.sublist (List.take_sublist _ _) hs
      · exact ih _ (List.Pairwise.sublist (List.drop_sublist _ _) hs) c hc

/-- C8: `split_halves(ordinals, N)` partitions its input: `lower ∪ upper =
input`, `lower ∩ upper = ∅`, every element of `lower` is strictly less than
`N/2` (integer division) and every element of `upper` is greater than or
equal; for `replicas=1` with input `[0]` it yields `(∅, [0])`, and for
`replicas=2` with input `[0,1]` it yields `([0], [1])`. -/
theorem split_halves_partition (ordinals : List Int) (N : Nat) :
    (∀ x, x ∈ ordinals ↔
      x ∈ (split_halves ordinals N).1 ∨ x ∈ (split_halves ordinals N).2) ∧
    (∀ x, ¬(x ∈ (split_halves ordinals N).1 ∧ x ∈ (split_halves ordinals N).2)) ∧
    (∀ x ∈ (split_halves ordinals N).1, x < ((N / 2 : Nat) : Int)) ∧
    (∀ x ∈ (split_halves ordinals N).2, ((N / 2 : Nat) : Int) ≤ x) ∧
    split_halves [0] 1 = ([], [0]) ∧
    split_halves [0, 1] 2 = ([0], [1]) := by
  refine ⟨?_, ?_, ?_, ?_, by decide, by decide⟩
  · intro x
    have htot := lt_or_le x ((N / 2 : Nat) : Int)
    simp only [split_halves, List.mem_filter, decide_eq_true_eq, ge_iff_le]
    tauto
  · intro x
    simp only [split_halves, List.mem_filter, decide_eq_true_eq, ge_iff_le]
    intro ⟨⟨_, h1⟩, ⟨_, h2⟩⟩
    omega
  · intro x hx
    simp only [split_halves, List.mem_filter, decide_eq_true_eq] at hx
    exact hx.2
  · intro x hx
    simp only [split_halves, List.mem_filter, decide_eq_true_eq, ge_iff_le] at hx
    exact hx.2

/-- Witness for C8 at `ordinals = [0, 5]`, `N = 4`. -/
theorem split_halves_partition_witness :
    (0 : Int) ∈ (split_halves [0, 5] 4).1 ∧ (0 : Int) < ((4 / 2 : Nat) : Int) :=
  ⟨by decide, (split_halves_partition [0, 5] 4).2.2.1 0 (by decide)⟩

/-- C9: for batch size `M ≥ 1`, `batch_ordinals` yields chunks whose
concatenation is the ascending sort of the input (a sorted permutation of
the input), and every chunk is ascending-sorted with length in `[1, M]`. -/
theorem batch_ordinals_spec (ordinals : List Int) (M : Nat) (hM : 1 ≤ M) :
    (batch_ordinals ordinals M).flatten = sortOrdinals ordinals ∧
    (sortOrdinals ordinals).Perm ordinals ∧
    List.Sorted (· ≤ ·) (sortOrdinals ordinals) ∧
    ∀ c ∈ batch_ordinals ordinals M,
      1 ≤ c.length ∧ c.length ≤ M ∧ List.Sorted (· ≤ ·) c := by
  have hsorted : List.Sorted (· ≤ ·) (sortOrdinals ordinals) :=
    List.sorted_insertionSort _ _
  refine ⟨?_, List.perm_insertionSort _ _, hsorted, ?_⟩
  · exact chunkFuel_flatten hM _ _ le_rfl
  · intro c hc
    have h1 := chunkFuel_chunk_length hM _ _ c hc
    exact ⟨h1.1, h1.2, chunkFuel_chunk_sorted _ _ hsorted c hc⟩

/-- Witness for C9 at `ordinals = [5, 1]`, `M = 2`. -/
theorem batch_ordinals_spec_witness :
    1 ≤ 2 ∧ (batch_ordinals [5, 1] 2).flatten = sortOrdinals [5, 1] :=
  ⟨by decide, (batch_ordinals_spec [5, 1] 2 (by decide)).1⟩

/-! ### Claims about delete_batch -/

/-- C1: no pod whose `controller-revision-hash` label equals the target
revision at the moment of consideration is ever targeted for deletion by
`delete_batch`; the `to_delete` list contains only pods whose revision label
differs from the target (which includes pods with the label missing, whose
lookup is `none`).  Pods actually deleted are drawn from this list. -/
theorem delete_batch_never_deletes_current_revision
    (sts_name : String) (pods : List Pod) (batch : List Int)
    (target_revision : String) (p : Pod)
    (hp : p ∈ select_to_delete sts_name pods batch target_revision) :
    (podLabels p).lookup REVISION_LABEL ≠ some target_revision := by
  rw [select_to_delete, List.mem_filter] at hp
  have h2 := hp.2
  simp only [Bool.and_eq_true, pod_needs_update, decide_eq_true_eq] at h2
  exact h2.2

/-- Witness for C1: a pod on revision "old" with target "new". -/
theorem delete_batch_never_deletes_current_revision_witness :
    podWeb0old ∈ select_to_delete "web" [podWeb0old] [0] "new" ∧
    (podLabels podWeb0old).lookup REVISION_LABEL ≠ some "new" :=
  ⟨by decide,
    delete_batch_never_deletes_current_revision "web" [podWeb0old] [0] "new"
      podWeb0old (by decide)⟩

/-- Counterexample for C2: a 404 response from the delete call is NOT
treated as success — `delete_batch` has no exception handling, so the
`ApiException` aborts the batch: the call evaluates to `Except.error 404`
rather than continuing to a `BatchResult`. -/
theorem delete_batch_404_cex :
    delete_batch "web" [podWeb0old] [0] "new" (fun _ => some 404) =
      Except.error 404 := by
  rfl

theorem except_map_error_iff {α β γ : Type} (x : Except α β) (f : β → γ)
    (c : α) : x.map f = .error c ↔ x = .error c := by
  cases x <;> simp [Except.map]

theorem except_map_ok_iff {α β γ : Type} (x : Except α β) (f : β → γ)
    (b : γ) : x.map f = .ok b ↔ ∃ a, x = .ok a ∧ f a = b := by
  cases x <;> simp [Except.map]

theorem runDeletes_error_iff (resp : String → Option Nat) :
    ∀ ps : List Pod, (∃ c, runDeletes resp ps = .error c) ↔
      ∃ p ∈ ps, ∃ m, p.metadata = some m ∧ resp m.name ≠ none := by
  intro ps
  induction ps with
  | nil => simp [runDeletes]
  | cons p ps ih =>
    rcases hm : p.metadata with _ | m
    · simp only [runDeletes, hm]
      rw [ih]
      constructor
      · intro ⟨q, hq, hw⟩; exact ⟨q, List.mem_cons_of_mem _ hq, hw⟩
      · intro ⟨q, hq, m', hm', hr⟩
        rcases List.mem_cons.mp hq with rfl | hq
        · rw [hm] at hm'; exact absurd hm' (by simp)
        · exact ⟨q, hq, m', hm', hr⟩
    · rcases hr : resp m.name with _ | code
      · simp only [runDeletes, hm, hr]
        constructor
        · intro ⟨c, hc⟩
          have : runDeletes resp ps = .error c :=
            (except_map_error_iff _ _ _).mp hc
          rcases ih.mp ⟨c, this⟩ with ⟨q, hq, hw⟩
          exact ⟨q, List.mem_cons_of_mem _ hq, hw⟩
        · intro ⟨q, hq, m', hm', hresp⟩
          rcases List.mem_cons.mp hq with rfl | hq
          · rw [hm] at hm'
            have hmm : m = m' := by injection hm'
            subst hmm
            exact absurd hr hresp
          · rcases ih.mpr ⟨q, hq, m', hm', hresp⟩ with ⟨c, hc⟩
            exact ⟨c, (except_map_error_iff _ _ _).mpr hc⟩
      · simp only [runDeletes, hm, hr]
        constructor
        · intro _
          exact ⟨p, List.mem_cons_self _ _, m, hm, by simp [hr]⟩
        · intro _; exact ⟨code, rfl⟩

/-- C2 amended: `delete_batch` does not special-case 404.  The delete loop
has no exception handler, so the call fails (the exception propagates to the
orchestration runtime, whose generic retry applies) exactly when some
targeted pod with metadata receives an error response from the delete —
whether that error is 404 or anything else. -/
theorem delete_batch_error_iff (sts_name : String) (pods : List Pod)
    (batch : List Int) (target_revision : String)
    (resp : String → Option Nat) :
    (∃ c, delete_batch sts_name pods batch target_revision resp = .error c) ↔
      ∃ p ∈ select_to_delete sts_name pods batch target_revision,
        ∃ m, p.metadata = some m ∧ resp m.name ≠ none := by
  unfold delete_batch
  rw [← runDeletes_error_iff]
  constructor
  · intro ⟨c, hc⟩; exact ⟨c, (except_map_error_iff _ _ _).mp hc⟩
  · intro ⟨c, hc⟩; exact ⟨c, (except_map_error_iff _ _ _).mpr hc⟩

/-- Witness for the amended C2: a 404 on the only targeted pod makes
`delete_batch` fail. -/
theorem delete_batch_error_iff_witness :
    ∃ p ∈ select_to_delete "web" [podWeb0old] [0] "new",
      ∃ m, p.metadata = some m ∧ (fun _ : String => some 404) m.name ≠ none :=
  (delete_batch_error_iff "web" [podWeb0old] [0] "new"
    (fun _ => some 404)).mp ⟨404, by rfl⟩

/-- Counterexample for C10: two listed pods may resolve to the same ordinal
(here both carry pod-index label "0"), in which case `delete_batch` deletes
both — `deleted_count = 2` exceeds `len(batch) = 1`. -/
theorem delete_batch_count_cex :
    delete_batch "web" [podWeb0old, podWeb0oldB] [0] "new" (fun _ => none) =
      Except.ok ⟨[0], 2, 0⟩ ∧
    ([0] : List Int).length < 2 := by
  constructor
  · rfl
  · decide

theorem runDeletes_ok_le (resp : String → Option Nat) :
    ∀ (ps : List Pod) (n : Nat), runDeletes resp ps = .ok n →
      n ≤ ps.length := by
  intro ps
  induction ps with
  | nil => intro n hn; simp [runDeletes] at hn; omega
  | cons p ps ih =>
    intro n hn
    rcases hm : p.metadata with _ | m
    · simp only [runDeletes, hm] at hn
      have := ih n hn
      simp only [List.length_cons]
      omega
    · rcases hr : resp m.name with _ | code
      · simp only [runDeletes, hm, hr] at hn
        rcases (except_map_ok_iff _ _ _).mp hn with ⟨a, ha, hfa⟩
        have := ih a ha
        simp only [List.length_cons]
        omega
      · simp only [runDeletes, hm, hr] at hn
        exact absurd hn (by simp)

theorem filterMap_length_of_isSome {α β : Type} (f : α → Option β) :
    ∀ ps : List α, (∀ p ∈ ps, (f p).isSome) →
      (ps.filterMap f).length = ps.length := by
  intro ps
  induction ps with
  | nil => intro _; rfl
  | cons p ps ih =>
    intro h
    have hp := h p (List.mem_cons_self _ _)
    rcases hfp : f p with _ | b
    · rw [hfp] at hp; simp at hp
    · rw [List.filterMap_cons_some hfp]
      simp only [List.length_cons]
      rw [ih fun q hq => h q (List.mem_cons_of_mem _ hq)]

/-- Every pod in the `to_delete` list has a resolvable ordinal lying in the
batch. -/
theorem select_to_delete_ordinal_in_batch (sts_name : String)
    (pods : List Pod) (batch : List Int) (target_revision : String)
    (p : Pod) (hp : p ∈ select_to_delete sts_name pods batch target_revision) :
    ∃ o, get_ordinal p sts_name = some o ∧ o ∈ batch := by
  rw [select_to_delete, List.mem_filter] at hp
  have h2 := hp.2
  rw [Bool.and_eq_true] at h2
  have h1 := h2.1
  rcases ho : get_ordinal p sts_name with _ | o
  · rw [ho] at h1; simp [Option.any] at h1
  · rw [ho] at h1
    simp only [Option.any, decide_eq_true_eq] at h1
    exact ⟨o, rfl, h1⟩

/-- C10 amended: every pod targeted by `delete_batch` has a resolvable
ordinal that is a member of the given batch (so pods whose ordinal does not
resolve, or resolves outside the batch, are never deleted); and provided the
listed pods' resolved ordinals are pairwise distinct — as they are for a
real StatefulSet — at most `len(batch)` pods are deleted per call.  Without
that distinctness the bound fails (see the counterexample). -/
theorem delete_batch_targets_in_batch (sts_name : String) (pods : List Pod)
    (batch : List Int) (target_revision : String)
    (resp : String → Option Nat) :
    (∀ p ∈ select_to_delete sts_name pods batch target_revision,
      ∃ o, get_ordinal p sts_name = some o ∧ o ∈ batch) ∧
    (∀ res, delete_batch sts_name pods batch target_revision resp = .ok res →
      (pods.filterMap fun p => get_ordinal p sts_name).Nodup →
      res.deleted_count ≤ batch.length) := by
  constructor
  · exact fun p hp =>
      select_to_delete_ordinal_in_batch sts_name pods batch target_revision p hp
  · intro res hres hnodup
    rcases (except_map_ok_iff _ _ _).mp hres with ⟨n, hn, hfa⟩
    have hcount : res.deleted_count = n := by rw [← hfa]
    set toDel := select_to_delete sts_name pods batch target_revision with htd
    have hlen : n ≤ toDel.length := runDeletes_ok_le resp toDel n hn
    -- the ordinals of the targeted pods: nodup and contained in the batch
    have hsub : toDel.Sublist pods := List.filter_sublist _
    have hsubFM : (toDel.filterMap fun p => get_ordinal p sts_name).Sublist
        (pods.filterMap fun p => get_ordinal p sts_name) :=
      List.Sublist.filterMap _ hsub
    have hnd : (toDel.filterMap fun p => get_ordinal p sts_name).Nodup :=
      List.Nodup.sublist hsubFM hnodup
    have hss : (toDel.filterMap fun p => get_ordinal p sts_name) ⊆ batch := by
      intro o ho
      rcases List.mem_filterMap.mp ho with ⟨p, hp, hop⟩
      rcases select_to_delete_ordinal_in_batch sts_name pods batch
        target_revision p hp with ⟨o', ho', hob⟩
      rw [hop] at ho'
      have : o = o' := by injection ho'
      subst this
      exact hob
    have hfl : (toDel.filterMap fun p => get_ordinal p sts_name).length =
        toDel.length := by
      apply filterMap_length_of_isSome
      intro p hp
      rcases select_to_delete_ordinal_in_batch sts_name pods batch
        target_revision p hp with ⟨o, ho, _⟩
      rw [ho]; rfl
    have := (List.Nodup.subperm hnd hss).length_le
    omega

/-- Witness for the amended C10: the single targeted pod resolves to
ordinal 0, a member of the batch. -/
theorem delete_batch_targets_in_batch_witness :
    podWeb0old ∈ select_to_delete "web" [podWeb0old] [0] "new" ∧
    ∃ o, get_ordinal podWeb0old "web" = some o ∧ o ∈ ([0] : List Int) :=
  ⟨by decide,
    (delete_batch_targets_in_batch "web" [podWeb0old] [0] "new"
      (fun _ => none)).1 podWeb0old (by decide)⟩

/-! ### Claims about check_rollout_timer -/

/-- Counterexample for C4: with `state=planned` and `planned-at="abc"`
(present but not a parseable integer), the timer tick does not no-op — the
unguarded `int(planned_at_str)` raises `ValueError`, so the handler fails
with an exception. -/
theorem check_rollout_timer_unparseable_cex :
    check_rollout_timer true
      [(ROLL_ANNOTATION_STATE, "planned"), (ROLL_ANNOTATION_PLANNED_AT, "abc")]
      1000 defaultSettings = TimerOutcome.valueError ∧
    TimerOutcome.valueError ≠ TimerOutcome.noop := by
  exact ⟨rfl, by decide⟩

/-- C4 amended: on a timer tick where `state=planned` and the `planned-at`
annotation is present (non-empty) but not a parseable integer, the handler
raises an unhandled `ValueError` — the tick fails with an exception instead
of no-opping; no state is patched. -/
theorem check_rollout_timer_unparseable_raises (ann : List (String × String))
    (now : Int) (cfg : RolloutSettings) (s : String)
    (hstate : ann.lookup ROLL_ANNOTATION_STATE = some ROLL_STATE_PLANNED)
    (hplanned : ann.lookup ROLL_ANNOTATION_PLANNED_AT = some s)
    (hne : s ≠ "") (hparse : parsePyInt s = none) :
    check_rollout_timer true ann now cfg = TimerOutcome.valueError := by
  simp [check_rollout_timer, hstate, hplanned, hne, hparse]

/-- Witness for the amended C4 at `planned-at = "abc"`. -/
theorem check_rollout_timer_unparseable_raises_witness :
    parsePyInt "abc" = none ∧
    check_rollout_timer true
      [(ROLL_ANNOTATION_STATE, "planned"), (ROLL_ANNOTATION_PLANNED_AT, "abc")]
      500 defaultSettings = TimerOutcome.valueError :=
  ⟨rfl,
    check_rollout_timer_unparseable_raises
      [(ROLL_ANNOTATION_STATE, "planned"), (ROLL_ANNOTATION_PLANNED_AT, "abc")]
      500 defaultSettings "abc" rfl rfl (by decide) rfl⟩

/-- C7: the timer patches `state=rolling` only when the annotation state is
`planned`, `planned-at` is present and parses to an integer `t`, and
`now − t ≥ delay_seconds`; the patch the transition writes is exactly
`state=rolling`.  Hence a `planned → rolling` transition occurs no earlier
than `DELAY_SECONDS` after `planned-at`. -/
theorem check_rollout_timer_rolling_only_after_delay (isTarget : Bool)
    (ann : List (String × String)) (now : Int) (cfg : RolloutSettings)
    (p : List (String × String))
    (h : check_rollout_timer isTarget ann now cfg = TimerOutcome.startRolling p) :
    ann.lookup ROLL_ANNOTATION_STATE = some ROLL_STATE_PLANNED ∧
    (∃ s t, ann.lookup ROLL_ANNOTATION_PLANNED_AT = some s ∧
      parsePyInt s = some t ∧ cfg.delay_seconds ≤ now - t) ∧
    p = [(ROLL_ANNOTATION_STATE, ROLL_STATE_ROLLING)] := by
  simp only [check_rollout_timer] at h
  by_cases ht : isTarget
  swap
  · simp [ht] at h
  rw [ht] at h
  simp only [Bool.not_true, Bool.false_eq_true, if_false] at h
  split at h
  · exact absurd h (by simp)
  rename_i hstate
  rw [not_ne_iff] at hstate
  split at h
  · exact absurd h (by simp)
  rename_i s hs
  split at h
  · exact absurd h (by simp)
  rename_i hsne
  split at h
  · exact absurd h (by simp)
  rename_i t hparse
  split at h
  · exact absurd h (by simp)
  rename_i hrem
  refine ⟨hstate, ⟨s, t, hs, hparse, by omega⟩, ?_⟩
  have h2 := h.symm
  injection h2 with hp

/-- Witness for C7: with `planned-at = 100`, `now = 700` and the default
600-second delay, the timer transitions to rolling. -/
theorem check_rollout_timer_rolling_only_after_delay_witness :
    check_rollout_timer true
      [(ROLL_ANNOTATION_STATE, "planned"), (ROLL_ANNOTATION_PLANNED_AT, "100")]
      700 defaultSettings =
      TimerOutcome.startRolling [(ROLL_ANNOTATION_STATE, ROLL_STATE_ROLLING)] ∧
    (defaultSettings.delay_seconds ≤ 700 - 100 ∧
      [(ROLL_ANNOTATION_STATE, "planned"),
        (ROLL_ANNOTATION_PLANNED_AT, "100")].lookup ROLL_ANNOTATION_STATE =
        some ROLL_STATE_PLANNED) := by
  have h : check_rollout_timer true
      [(ROLL_ANNOTATION_STATE, "planned"), (ROLL_ANNOTATION_PLANNED_AT, "100")]
      700 defaultSettings =
      TimerOutcome.startRolling [(ROLL_ANNOTATION_STATE, ROLL_STATE_ROLLING)] := by
    rfl
  have hc := check_rollout_timer_rolling_only_after_delay true
    [(ROLL_ANNOTATION_STATE, "planned"), (ROLL_ANNOTATION_PLANNED_AT, "100")]
    700 defaultSettings _ h
  refine ⟨h, ?_, hc.1⟩
  rcases hc.2.1 with ⟨s, t, hs, hparse, hd⟩
  have hs100 : s = "100" := by
    have : some s = some "100" := by rw [← hs]; rfl
    injection this
  subst hs100
  have ht : t = 100 := by
    have h3 : some t = some (100 : Int) := by rw [← hparse]; rfl
    injection h3
  subst ht
  exact hd

/-! ### Claims about on_sts_change -/

/-- A StatefulSet whose annotations record `state=done`, `last-revision=r1`,
and whose status shows outstanding work (2 replicas, only 1 updated). -/
def stsDoneEq : ReadSts :=
  ⟨some [(ROLL_ANNOTATION_STATE, "done"), (ROLL_ANNOTATION_REVISION, "r1")],
    some ⟨some 2, some 1⟩, some 2⟩

/-- Two pods, both carrying the pod-index label; pod 0 still on `r0`. -/
def podsTwo : List Pod :=
  [⟨some ⟨"web-0", some [(POD_INDEX_LABEL, "0"), (REVISION_LABEL, "r0")]⟩⟩,
   ⟨some ⟨"web-1", some [(POD_INDEX_LABEL, "1"), (REVISION_LABEL, "r1")]⟩⟩]

/-- Counterexample for C3: with `state=done`, outstanding work
(`needs_rollout = true`, since `status.replicas = 2 > 1 = updatedReplicas`),
and `updateRevision = "r1"` equal to the recorded `last-revision`, the
change handler returns at the equal-revision early-return (line 869's
`return` is unconditional inside that branch) and does NOT write
`state=planned` — contradicting the claim's "including the case where
updateRevision equals the recorded last-revision". -/
theorem on_sts_change_equal_revision_cex :
    needs_rollout stsDoneEq = true ∧
    (extract_annotations stsDoneEq).lookup ROLL_ANNOTATION_STATE =
      some ROLL_STATE_DONE ∧
    on_sts_change true (some ⟨some "OnDelete", some 2⟩)
      (some ⟨some "r1", some "r0"⟩) stsDoneEq podsTwo 1000 =
      WatchOutcome.revisionComplete :=
  ⟨rfl, rfl, rfl⟩

/-- C3 amended: on a change event with strategy OnDelete, a present
non-empty `updateRevision`, annotation state `none`/`done` (missing counts
as `none`), outstanding work, a non-empty pod list all carrying the
pod-index label, AND `updateRevision` different from the recorded
`last-revision`, the watcher merges exactly
`state=planned, last-revision=updateRevision, planned-at=now` into the
patch.  (When `updateRevision` equals the recorded `last-revision` the
handler instead returns without writing, even if outstanding work exists —
see the counterexample.) -/
theorem on_sts_change_plans_on_new_revision (spec : Option KopfSpec)
    (status : Option KopfStatus) (sts : ReadSts) (pods : List Pod)
    (now : Int) (upd : String)
    (hstrat : spec.bind (fun s => s.strategyType) = some "OnDelete")
    (hupd : status.bind (fun s => s.updateRevision) = some upd)
    (hne : upd ≠ "")
    (hrev : (extract_annotations sts).lookup ROLL_ANNOTATION_REVISION ≠
      some upd)
    (hstate : ((extract_annotations sts).lookup
        ROLL_ANNOTATION_STATE).getD ROLL_STATE_NONE = ROLL_STATE_NONE ∨
      ((extract_annotations sts).lookup
        ROLL_ANNOTATION_STATE).getD ROLL_STATE_NONE = ROLL_STATE_DONE)
    (hneed : needs_rollout sts = true)
    (hpods : pods ≠ [])
    (hidx : missingIndexNames pods = .ok []) :
    on_sts_change true spec status sts pods now =
      WatchOutcome.planned (set_annotations_patch (some ROLL_STATE_PLANNED)
        (some upd) (some (toString now))) := by
  rcases hstate with hs | hs <;>
    simp [on_sts_change, hstrat, hupd, hne, hrev, hneed, hpods, hidx, hs]

/-- Witness for the amended C3: same StatefulSet as the counterexample but
with a genuinely new `updateRevision = "r2"`; the planned patch is
written. -/
theorem on_sts_change_plans_on_new_revision_witness :
    needs_rollout stsDoneEq = true ∧
    on_sts_change true (some ⟨some "OnDelete", some 2⟩)
      (some ⟨some "r2", some "r0"⟩) stsDoneEq podsTwo 1000 =
      WatchOutcome.planned (set_annotations_patch (some ROLL_STATE_PLANNED)
        (some "r2") (some (toString (1000 : Int)))) :=
  ⟨rfl,
    on_sts_change_plans_on_new_revision (some ⟨some "OnDelete", some 2⟩)
      (some ⟨some "r2", some "r0"⟩) stsDoneEq podsTwo 1000 "r2"
      rfl rfl (by decide) (by decide) (Or.inr rfl) rfl (by decide) rfl⟩

/-! ### Claims about _execute_rollout -/

theorem execGo_supersede (cfg : RolloutSettings) (name : String)
    (original_target R0target : String) (env : ExecEnv) (r' : String) :
    ∀ (bs : List (List Int)) (k : Nat),
      Ev.revCheck (some r') ∈
        (execGo cfg name original_target R0target env bs k).1 →
      r' ≠ original_target →
      (execGo cfg name original_target R0target env bs k).2.1 =
        ExecResult.superseded (some r') ∧
      (execGo cfg name original_target R0target env bs k).2.2 =
        [(ROLL_ANNOTATION_REVISION, r')] ∧
      Ev.finalize ∉ (execGo cfg name original_target R0target env bs k).1 := by
  intro bs
  induction bs with
  | nil =>
    intro k hmem _
    simp [execGo] at hmem
  | cons b bs ih =>
    intro k hmem hne
    by_cases hr : env.revAt k = some original_target
    · have hcond : ¬(env.revAt k ≠ some original_target) := not_not_intro hr
      rcases hdb : delete_batch name (env.podsAt k) b R0target
          (env.deleteResp k) with code | res
      · have heq : execGo cfg name original_target R0target env (b :: bs) k =
            ([.revCheck (env.revAt k)], .deleteFailed code, []) := by
          simp [execGo, if_neg hcond, hdb]
        rw [heq] at hmem
        simp only [List.mem_singleton, Ev.revCheck.injEq] at hmem
        rw [hr] at hmem
        simp only [Option.some.injEq] at hmem
        exact absurd hmem hne
      · by_cases hdc : res.deleted_count = 0
        · have heq : execGo cfg name original_target R0target env (b :: bs) k =
              (.revCheck (env.revAt k) ::
                .batchDone b res.deleted_count res.skipped_count ::
                (execGo cfg name original_target R0target env bs (k + 1)).1,
               (execGo cfg name original_target R0target env bs (k + 1)).2) := by
            simp [execGo, if_neg hcond, hdb, hdc]
          rw [heq] at hmem ⊢
          simp only [List.mem_cons] at hmem
          rcases hmem with h1 | h1 | h1
          · rw [hr] at h1
            simp only [Ev.revCheck.injEq, Option.some.injEq] at h1
            exact absurd h1 hne
          · simp at h1
          · have hres := ih (k + 1) h1 hne
            refine ⟨hres.1, hres.2.1, ?_⟩
            simp only [List.mem_cons, not_or]
            exact ⟨by simp, by simp, hres.2.2⟩
        · by_cases hw : env.waitOk k
          · have heq : execGo cfg name original_target R0target env (b :: bs) k =
                (.revCheck (env.revAt k) ::
                  .batchDone b res.deleted_count res.skipped_count ::
                  .waitReady b ::
                  (execGo cfg name original_target R0target env bs (k + 1)).1,
                 (execGo cfg name original_target R0target env bs (k + 1)).2) := by
              simp [execGo, if_neg hcond, hdb, hdc, hw]
            rw [heq] at hmem ⊢
            simp only [List.mem_cons] at hmem
            rcases hmem with h1 | h1 | h1 | h1
            · rw [hr] at h1
              simp only [Ev.revCheck.injEq, Option.some.injEq] at h1
              exact absurd h1 hne
            · simp at h1
            · simp at h1
            · have hres := ih (k + 1) h1 hne
              refine ⟨hres.1, hres.2.1, ?_⟩
              simp only [List.mem_cons, not_or]
              exact ⟨by simp, by simp, by simp, hres.2.2⟩
          · have heq : execGo cfg name original_target R0target env (b :: bs) k =
                ([.revCheck (env.revAt k),
                  .batchDone b res.deleted_count res.skipped_count],
                 .waitTimeout, []) := by
              simp [execGo, if_neg hcond, hdb, hdc, hw]
            rw [heq] at hmem
            simp only [List.mem_cons] at hmem
            rcases hmem with h1 | h1 | h1
            · rw [hr] at h1
              simp only [Ev.revCheck.injEq, Option.some.injEq] at h1
              exact absurd h1 hne
            · simp at h1
            · simp at h1
    · have heq : execGo cfg name original_target R0target env (b :: bs) k =
          ([.revCheck (env.revAt k)], .superseded (env.revAt k),
            set_annotations_patch none (env.revAt k) none) := by
        simp [execGo, if_pos hr]
      rw [heq] at hmem ⊢
      simp only [List.mem_singleton, Ev.revCheck.injEq] at hmem
      refine ⟨?_, ?_, ?_⟩
      · dsimp only
        rw [← hmem]
      · dsimp only
        rw [← hmem]
        simp [set_annotations_patch]
      · simp

/-- C6: when a pre-batch re-read of the StatefulSet observes an
`updateRevision` `r'` different from the plan's original target, the
executor ends superseded: the patch it merges is exactly
`last-revision = r'` (no `state` key, so the state annotation remains
`rolling` as set before entry), and it never reaches finalization (no
`done` write for the original target). -/
theorem exec_supersession_updates_revision_only (cfg : RolloutSettings)
    (name : String) (replicas : Nat) (R0 target : String) (env : ExecEnv)
    (r' : String)
    (hmem : Ev.revCheck (some r') ∈
      (execute_rollout cfg name replicas R0 target env).1)
    (hne : r' ≠ R0) :
    (execute_rollout cfg name replicas R0 target env).2.1 =
      ExecResult.superseded (some r') ∧
    (execute_rollout cfg name replicas R0 target env).2.2 =
      [(ROLL_ANNOTATION_REVISION, r')] ∧
    (∀ v, (ROLL_ANNOTATION_STATE, v) ∉
      (execute_rollout cfg name replicas R0 target env).2.2) ∧
    Ev.finalize ∉ (execute_rollout cfg name replicas R0 target env).1 := by
  have h := execGo_supersede cfg name R0 target env r'
    (compute_batches cfg replicas) 0 hmem hne
  refine ⟨h.1, h.2.1, ?_, h.2.2⟩
  intro v hv
  simp only [execute_rollout] at hv
  rw [h.2.1] at hv
  simp [ROLL_ANNOTATION_STATE, ROLL_ANNOTATION_REVISION] at hv

/-- An environment whose first revision re-read returns "r9". -/
def envSup : ExecEnv :=
  ⟨fun _ => some "r9", fun _ => [], fun _ _ => none, fun _ => true⟩

/-- Witness for C6: with original target "r0" and a re-read returning "r9",
the executor supersedes and patches only the revision annotation. -/
theorem exec_supersession_updates_revision_only_witness :
    Ev.revCheck (some "r9") ∈
      (execute_rollout defaultSettings "web" 2 "r0" "r0" envSup).1 ∧
    (execute_rollout defaultSettings "web" 2 "r0" "r0" envSup).2.1 =
      ExecResult.superseded (some "r9") :=
  ⟨by decide,
    (exec_supersession_updates_revision_only defaultSettings "web" 2 "r0" "r0"
      envSup "r9" (by decide) (by decide)).1⟩

/-- Environment for the C5 counterexample: no supersession (re-reads always
return the target "new"), the first processed batch (upper half, ordinal 1)
finds only a pod already on the target revision, the second batch (ordinal 0)
finds a pod still on "old"; deletes succeed and waits succeed. -/
def envSkip : ExecEnv :=
  ⟨fun _ => some "new",
   fun k => if k = 0 then [podWeb1new] else [podWeb0old],
   fun _ _ => none,
   fun _ => true⟩

/-- Counterexample for C5: with 2 replicas (plan `[[1], [0]]`, upper half
first) and batch `[1]`'s pod already on the target revision, the executor
records `deleted = 0` for batch `[1]` and hits `continue`
(rollout_operator.py line 608) — the next batch `[0]` is started (both
batches appear in the trace, in order) with NO readiness wait for batch
`[1]`'s ordinals anywhere in the trace, and the run proceeds to completion.
This refutes the unconditional "a later batch is not started until every
ordinal of the prior batch is Ready". -/
theorem exec_skip_batch_no_wait_cex :
    batchTrace (execute_rollout defaultSettings "web" 2 "new" "new" envSkip).1 =
      [[1], [0]] ∧
    Ev.waitReady [1] ∉
      (execute_rollout defaultSettings "web" 2 "new" "new" envSkip).1 ∧
    (execute_rollout defaultSettings "web" 2 "new" "new" envSkip).2.1 =
      ExecResult.completed :=
  ⟨by decide, by decide, by decide⟩

theorem execGo_order_and_gating (cfg : RolloutSettings) (name : String)
    (original_target R0target : String) (env : ExecEnv) :
    ∀ (bs : List (List Int)) (k : Nat),
      (∃ n, batchTrace (execGo cfg name original_target R0target env bs k).1 =
        bs.take n) ∧
      Gated (execGo cfg name original_target R0target env bs k).1 := by
  intro bs
  induction bs with
  | nil =>
    intro k
    exact ⟨⟨0, by simp [execGo, batchTrace]⟩, by simp [execGo, Gated]⟩
  | cons b bs ih =>
    intro k
    by_cases hr : env.revAt k = some original_target
    · have hcond : ¬(env.revAt k ≠ some original_target) := not_not_intro hr
      rcases hdb : delete_batch name (env.podsAt k) b R0target
          (env.deleteResp k) with code | res
      · have heq : execGo cfg name original_target R0target env (b :: bs) k =
            ([.revCheck (env.revAt k)], .deleteFailed code, []) := by
          simp [execGo, if_neg hcond, hdb]
        rw [heq]
        exact ⟨⟨0, by simp [batchTrace]⟩, by simp [Gated]⟩
      · by_cases hdc : res.deleted_count = 0
        · have heq : execGo cfg name original_target R0target env (b :: bs) k =
              (.revCheck (env.revAt k) ::
                .batchDone b res.deleted_count res.skipped_count ::
                (execGo cfg name original_target R0target env bs (k + 1)).1,
               (execGo cfg name original_target R0target env bs (k + 1)).2) := by
            simp [execGo, if_neg hcond, hdb, hdc]
          rw [heq]
          obtain ⟨⟨n, hn⟩, hg⟩ := ih (k + 1)
          refine ⟨⟨n + 1, ?_⟩, ?_⟩
          · simp only [batchTrace, List.take_succ_cons]
            rw [hn]
          · simp only [Gated]
            exact ⟨fun h => absurd h (by omega), hg⟩
        · by_cases hw : env.waitOk k
          · have heq : execGo cfg name original_target R0target env (b :: bs) k =
                (.revCheck (env.revAt k) ::
                  .batchDone b res.deleted_count res.skipped_count ::
                  .waitReady b ::
                  (execGo cfg name original_target R0target env bs (k + 1)).1,
                 (execGo cfg name original_target R0target env bs (k + 1)).2) := by
              simp [execGo, if_neg hcond, hdb, hdc, hw]
            rw [heq]
            obtain ⟨⟨n, hn⟩, hg⟩ := ih (k + 1)
            refine ⟨⟨n + 1, ?_⟩, ?_⟩
            · simp only [batchTrace, List.take_succ_cons]
              rw [hn]
            · simp only [Gated]
              exact ⟨fun _ => Or.inr ⟨_, rfl⟩, hg⟩
          · have heq : execGo cfg name original_target R0target env (b :: bs) k =
                ([.revCheck (env.revAt k),
                  .batchDone b res.deleted_count res.skipped_count],
                 .waitTimeout, []) := by
              simp [execGo, if_neg hcond, hdb, hdc, hw]
            rw [heq]
            refine ⟨⟨1, ?_⟩, ?_⟩
            · simp [batchTrace]
            · simp [Gated]
    · have heq : execGo cfg name original_target R0target env (b :: bs) k =
          ([.revCheck (env.revAt k)], .superseded (env.revAt k),
            set_annotations_patch none (env.revAt k) none) := by
        simp [execGo, if_pos hr]
      rw [heq]
      exact ⟨⟨0, by simp [batchTrace]⟩, by simp [Gated]⟩

/-- C5 amended: within one executor invocation the batches recorded in the
trace are always an initial prefix of the planned batch list — batches
execute strictly in planned order, and execution that stops (supersession,
delete failure, readiness timeout) stops cleanly between batches.  A later
batch is not started until, for every prior batch that deleted at least one
pod, a readiness wait for exactly that batch's ordinals has succeeded
(`wait_pods_ready` returns only when every ordinal of the batch has a
non-terminating Ready pod); if such a wait times out the invocation aborts
and no later batch starts.  This is the `Gated` trace property.  The
original claim's unconditional gating does not hold: a prior batch that
deleted nothing (all its pods already on the target revision, or absent) is
skipped via `continue` with no readiness wait — see the counterexample. -/
theorem exec_batches_in_order_and_gated (cfg : RolloutSettings)
    (name : String) (replicas : Nat) (R0 target : String) (env : ExecEnv) :
    (∃ n, batchTrace (execute_rollout cfg name replicas R0 target env).1 =
      (compute_batches cfg replicas).take n) ∧
    Gated (execute_rollout cfg name replicas R0 target env).1 :=
  execGo_order_and_gating cfg name R0 target env
    (compute_batches cfg replicas) 0

end RolloutOperator
